import Mathlib

/-!
Shallow embedding of the custrings substring operations
(`cpp/src/NVStrings_substr.cu`): `NVStrings::get`, `NVStrings::slice`,
`NVStrings::slice_from`, `NVStrings::extract`, `NVStrings::extract_record`.

A device string (`custring_view`) is modelled as its list of Unicode
codepoints; a string array element is `Option Str` (`none` is the null
marker, distinct from the empty string).  Host/device control flow is
modelled by pure functions: the per-element sizer kernels become maps over
the element list, the exclusive prefix-sum (`thrust::exclusive_scan`)
becomes `exclusive_scan`, and the transform kernels become maps producing
the output element list directly (each thread writes only its own slot, so
the packed buffer layout is observationally the list of produced strings).
Fallible host paths return `Except`.  Allocation success of
`createMemoryFor` / `alloc_relists` is a Boolean parameter, since the
external allocator may fail.
-/

set_option autoImplicit false

/-- A device string: its list of Unicode codepoints. -/
abbrev Str := List Nat

/-- Modelled from the spec: UTF-8 is the storage encoding (glossary:
"UTF-8 strings are variable-width"); `custring_view.cuh` is not part of
the sources here, so the standard UTF-8 encoding of one codepoint is used
for byte counting. -/
def utf8Encode (c : Nat) : List Nat :=
  if c < 128 then [c]
  else if c < 2048 then [192 + c / 64, 128 + c % 64]
  else if c < 65536 then [224 + c / 4096, 128 + c / 64 % 64, 128 + c % 64]
  else [240 + c / 262144, 128 + c / 4096 % 64, 128 + c / 64 % 64, 128 + c % 64]

/-- The UTF-8 bytes of a string (concatenation of its codepoints' encodings). -/
def strBytes : Str → List Nat
  | [] => []
  | c :: t => utf8Encode c ++ strBytes t

/-- Modelled from the spec: `chars_count` of `custring_view` is the number
of codepoints of the string. -/
def chars_count (s : Str) : Nat := s.length

/-- Modelled from the spec: the "fixed alignment boundary" to which every
computed size is rounded up (`ALIGN_SIZE` in the source; the macro itself
lives outside these sources). -/
def alignBoundary : Nat := 8

/-- Modelled from the spec: round a byte size up to the fixed alignment
boundary. -/
def ALIGN_SIZE (v : Nat) : Nat := ((v + alignBoundary - 1) / alignBoundary) * alignBoundary

/-- The C cast `(unsigned)i` applied to a 32-bit `int` value. -/
def toU32 (i : Int) : Nat := (i % 4294967296).toNat

/-- Modelled from the spec: `custring_view::substr(start,len,step)` keeps
the codepoints of positions `[start, start+len)` sampled every `step`,
clamped to the end of the string (spec 4.2: "size = byte-length of
codepoints `[start, effective_stop)` sampled every `step`"). -/
def substr (s : Str) (start len step : Nat) : Str :=
  (List.range len).filterMap (fun j => if j % step = 0 then s.get? (start + j) else none)

/-- Modelled from the spec: `custring_view::substr_size` is the byte size
of the substring that `substr` would produce. -/
def substr_size (s : Str) (start len step : Nat) : Nat :=
  (strBytes (substr s start len step)).length

/-- Error text thrown by `NVStrings::slice` on `stop > 0 && start > stop`. -/
def sliceErr : String := "nvstrings::slice start cannot be greater than stop"

/-- The `len` computed by the slice kernels:
`( stop <= 0 ? dstr->chars_count() : stop ) - start`. -/
def sliceLen (cc : Nat) (start stop : Int) : Int :=
  (if stop ≤ 0 then (cc : Int) else stop) - start

/-- One element's result in the slice transform kernel:
`dstr->substr((unsigned)start,(unsigned)len,(unsigned)step,buffer)`. -/
def sliceElem (start stop step : Int) (s : Str) : Str :=
  substr s (toU32 start) (toU32 (sliceLen (chars_count s) start stop)) (toU32 step)

/-- One element's raw (pre-alignment) byte size in the slice sizer kernel. -/
def sliceRawSize (start stop step : Int) (os : Option Str) : Nat :=
  match os with
  | none => 0
  | some s => substr_size s (toU32 start) (toU32 (sliceLen (chars_count s) start stop)) (toU32 step)

/-- One element's entry in the slice size table: the sizer kernel leaves
null elements at the initial 0 and stores `ALIGN_SIZE(substr_size(...))`
for the rest. -/
def sliceSize (start stop step : Int) (os : Option Str) : Nat :=
  match os with
  | none => 0
  | some s => ALIGN_SIZE (substr_size s (toU32 start) (toU32 (sliceLen (chars_count s) start stop)) (toU32 step))

/-- The slice size table (`lengths` in the source). -/
def sliceSizes (strs : List (Option Str)) (start stop step : Int) : List Nat :=
  strs.map (sliceSize start stop step)

/-- Exclusive scan with accumulator, the sequential meaning of
`thrust::exclusive_scan`. -/
def escan (a : Nat) : List Nat → List Nat
  | [] => []
  | x :: t => a :: escan (a + x) t

/-- Exclusive prefix-sum of a size table. -/
def exclusive_scan (l : List Nat) : List Nat := escan 0 l

/-- The slice offset table (`offsets` in the source). -/
def sliceOffsets (strs : List (Option Str)) (start stop step : Int) : List Nat :=
  exclusive_scan (sliceSizes strs start stop step)

/-- `NVStrings::slice(start,stop,step)`.  `bufAlloc` is the success of the
output-buffer allocation: `createMemoryFor` returns a null buffer when the
total size is zero or allocation fails, in which case the result object is
returned with all strings still null. -/
def NVStrings.slice (strs : List (Option Str)) (start stop step : Int) (bufAlloc : Bool) :
    Except String (List (Option Str)) :=
  if stop > 0 ∧ start > stop then Except.error sliceErr
  else if (sliceSizes strs start stop step).sum = 0 ∨ bufAlloc = false then
    Except.ok (strs.map (fun _ => none))
  else
    Except.ok (strs.map (fun os => os.map (sliceElem start stop step)))

/-- `NVStrings::get(pos)`: literally `slice(pos, pos+1, 1)`. -/
def NVStrings.get (strs : List (Option Str)) (pos : Nat) (bufAlloc : Bool) :
    Except String (List (Option Str)) :=
  NVStrings.slice strs (pos : Int) ((pos : Int) + 1) 1 bufAlloc

/-- The per-element `start` of `slice_from`: `(starts ? starts[idx] : 0)`. -/
def startsAt (starts : Option (List Int)) (i : Nat) : Int :=
  match starts with
  | none => 0
  | some a => a.getD i 0

/-- The per-element `stop` of `slice_from`: `(stops ? stops[idx] : -1)`. -/
def stopsAt (stops : Option (List Int)) (i : Nat) : Int :=
  match stops with
  | none => -1
  | some a => a.getD i 0

/-- The `slice_from` sizer kernel's body for element `i`: null elements
keep size 0, others store `ALIGN_SIZE(substr_size(start, len))` with the
per-element `start`/`stop` (two-argument `substr_size`, step 1). -/
def sliceFromSizeAt (strs : List (Option Str)) (starts stops : Option (List Int))
    (i : Nat) : Nat :=
  match strs.getD i none with
  | none => 0
  | some s => ALIGN_SIZE (substr_size s (toU32 (startsAt starts i))
      (toU32 (sliceLen (chars_count s) (startsAt starts i) (stopsAt stops i))) 1)

/-- The `slice_from` transform kernel's body for element `i`:
`dstr->substr((unsigned)start, (unsigned)len, 1, buffer)`. -/
def sliceFromElemAt (strs : List (Option Str)) (starts stops : Option (List Int))
    (i : Nat) : Option Str :=
  (strs.getD i none).map (fun s => substr s (toU32 (startsAt starts i))
    (toU32 (sliceLen (chars_count s) (startsAt starts i) (stopsAt stops i))) 1)

/-- `NVStrings::slice_from(starts,stops)`: each element sliced with its own
`(start, stop)` pulled from the optional device arrays, step 1. -/
def NVStrings.slice_from (strs : List (Option Str)) (starts stops : Option (List Int))
    (bufAlloc : Bool) : Except String (List (Option Str)) :=
  let count := strs.length
  let lengths : List Nat := (List.range count).map (sliceFromSizeAt strs starts stops)
  if lengths.sum = 0 ∨ bufAlloc = false then
    Except.ok ((List.range count).map (fun _ => none))
  else
    Except.ok ((List.range count).map (sliceFromElemAt strs starts stops))

/-- The claim's reading of `slice_from`: element `i` is processed by the
fixed slice's own per-element sizer (`sliceSize`) and transform
(`sliceElem`) with `start = starts[i]` (default 0), `stop = stops[i]`
(default -1, i.e. "to end") and step 1. -/
def slice_from_spec (strs : List (Option Str)) (starts stops : Option (List Int))
    (bufAlloc : Bool) : Except String (List (Option Str)) :=
  let count := strs.length
  let lengths := (List.range count).map (fun i =>
    sliceSize (startsAt starts i) (stopsAt stops i) 1 (strs.getD i none))
  if lengths.sum = 0 ∨ bufAlloc = false then
    Except.ok ((List.range count).map (fun _ => none))
  else
    Except.ok ((List.range count).map (fun i =>
      (strs.getD i none).map (sliceElem (startsAt starts i) (stopsAt stops i) 1)))

/-- Modelled from the spec: instruction-count threshold of the largest
fixed working-memory class (`MAX_STACK_INSTS` in `regex.cuh`, outside
these sources); above it the operation needs dynamically allocated regex
working memory (`alloc_relists`). -/
def MAX_STACK_INSTS : Nat := 1000

/-- Modelled from the spec: the external device regex engine interface
(`compile`, `instructionCount`, `groupCount`, `find`, `extract`); a value
of this structure stands for one compiled program (`dreprog`).  `find`
returns the whole-match span (begin, end codepoint positions) or `none`;
`extract` returns a capture group's sub-span within a given span or
`none`. -/
structure DReprog where
  inst_counts : Nat
  group_counts : Nat
  find : Str → Option (Int × Int)
  extract : Str → Int × Int → Nat → Option (Int × Int)

/-- The two device calls made per element by the extract sizer: `find` for
the whole match, then `extract` for group `col` within that span. -/
def extractSpanS (prog : DReprog) (col : Nat) (s : Str) : Option (Int × Int) :=
  match prog.find s with
  | none => none
  | some (b, e) => prog.extract s (b, e) col

/-- One element's effect on the extract size table for column `col`: on
success the sizer stores `ALIGN_SIZE(substr_size(begin, end-begin))`, and
otherwise it leaves the previous entry `old` untouched (the `lengths`
vector is allocated once and reused across columns). -/
def extractNewLen (prog : DReprog) (col : Nat) (os : Option Str) (old : Nat) : Nat :=
  match os with
  | none => old
  | some s =>
    match extractSpanS prog col s with
    | none => old
    | some (b, e) => ALIGN_SIZE (substr_size s (toU32 b) (toU32 (e - b)) 1)

/-- One element of an extract output column: the transform kernel writes
`substr(start, stop-start, 1)` only when the recorded span satisfies
`stop > start`; a null input or a failed `find`/`extract` leaves the
output descriptor null (`d_begins = d_ends = -1`). -/
def extractColElem (prog : DReprog) (col : Nat) (os : Option Str) : Option Str :=
  match os with
  | none => none
  | some s =>
    match extractSpanS prog col s with
    | none => none
    | some (b, e) => if b < e then some (substr s (toU32 b) (toU32 (e - b)) 1) else none

/-- The per-column loop of `NVStrings::extract`: for each group index `c`
(with `fuel` columns left) run the sizer over the reused `lens` table,
then either leave the column all-null (`createMemoryFor` returned null:
zero total or failed allocation) or run the transform kernel. -/
def extractGo (strs : List (Option Str)) (prog : DReprog) (bufAlloc : Nat → Bool) :
    Nat → Nat → List Nat → List (List (Option Str))
  | _, 0, _ => []
  | c, Nat.succ f, lens =>
    let newLens := List.zipWith (extractNewLen prog c) strs lens
    (if newLens.sum = 0 ∨ bufAlloc c = false
      then strs.map (fun _ => none)
      else strs.map (extractColElem prog c)) :: extractGo strs prog bufAlloc (c + 1) f newLens

/-- Error text thrown by `NVStrings::extract` when `alloc_relists` fails. -/
def extractErr : String := "nvstrings::extract: number of instructions and number of strings exceeds available memory"

/-- Error text thrown by `NVStrings::extract_record` when `alloc_relists` fails. -/
def recordErr : String := "nvstrings::extract_record: number of instructions and number of strings exceeds available memory"

/-- `NVStrings::extract(pattern, results)`: returns the error code or the
number of capture groups, paired with the list of column arrays appended
to `results`.  `pattern = none` models a null pattern pointer;
`relistsOk` is the success of `alloc_relists` (dynamic regex working
memory, consulted only when the instruction count exceeds
`MAX_STACK_INSTS`); `bufAlloc c` is the success of the column-`c` output
buffer allocation. -/
def NVStrings.extract (strs : List (Option Str)) (pattern : Option DReprog)
    (relistsOk : Bool) (bufAlloc : Nat → Bool) :
    Except String (Int × List (List (Option Str))) :=
  match pattern with
  | none => Except.ok (-1, [])
  | some prog =>
    if strs.length = 0 then Except.ok (0, [])
    else if MAX_STACK_INSTS < prog.inst_counts ∧ relistsOk = false then Except.error extractErr
    else if prog.group_counts = 0 then Except.ok (0, [])
    else Except.ok ((prog.group_counts : Int),
      extractGo strs prog bufAlloc 0 prog.group_counts (List.replicate strs.length 0))

/-- One element's row of the `extract_record` size table (`groups`
entries): zero everywhere for a null element or a failed `find`;
otherwise, per group, zero on a failed `extract` and
`ALIGN_SIZE(substr_size(spos, epos))` on success — the source passes
`(spos, epos)` where `substr_size` expects `(position, length)` (the
"this is wrong" comment in the sizer), and this embedding reproduces that
call as written. -/
def recordSizes (prog : DReprog) (os : Option Str) : List Nat :=
  match os with
  | none => List.replicate prog.group_counts 0
  | some s =>
    match prog.find s with
    | none => List.replicate prog.group_counts 0
    | some (b, e) =>
      (List.range prog.group_counts).map (fun col =>
        match prog.extract s (b, e) col with
        | none => 0
        | some (b2, e2) => ALIGN_SIZE (substr_size s (toU32 b2) (toU32 e2) 1))

/-- One output row of `NVStrings::extract_record`: when the row's total
size is zero no buffer is allocated and the row's `groups` descriptors
stay null; otherwise the transform kernel re-runs `find` and, per group,
`extract`, writing `substr(spos, epos-spos, 1)` on success. -/
def recordRow (prog : DReprog) (os : Option Str) : List (Option Str) :=
  if (recordSizes prog os).sum = 0 then List.replicate prog.group_counts none
  else
    match os with
    | none => List.replicate prog.group_counts none
    | some s =>
      match prog.find s with
      | none => List.replicate prog.group_counts none
      | some (b, e) =>
        (List.range prog.group_counts).map (fun col =>
          match prog.extract s (b, e) col with
          | none => none
          | some (b2, e2) => some (substr s (toU32 b2) (toU32 (e2 - b2)) 1))

/-- `NVStrings::extract_record(pattern, results)`: returns the error code
or the number of capture groups, paired with the list of row arrays (one
per input element) appended to `results`. -/
def NVStrings.extract_record (strs : List (Option Str)) (pattern : Option DReprog)
    (relistsOk : Bool) : Except String (Int × List (List (Option Str))) :=
  match pattern with
  | none => Except.ok (-1, [])
  | some prog =>
    if strs.length = 0 then Except.ok (0, [])
    else if MAX_STACK_INSTS < prog.inst_counts ∧ relistsOk = false then Except.error recordErr
    else if prog.group_counts = 0 then Except.ok (0, [])
    else Except.ok ((prog.group_counts : Int), strs.map (recordRow prog))

theorem utf8Encode_ne_nil (c : Nat) : utf8Encode c ≠ [] := by
  unfold utf8Encode
  split <;> try simp
  split <;> try simp
  split <;> simp

theorem strBytes_len_pos {s : Str} (h : s ≠ []) : 0 < (strBytes s).length := by
  cases s with
  | nil => exact absurd rfl h
  | cons c t =>
    have := utf8Encode_ne_nil c
    simp [strBytes, List.length_append]
    cases hc : utf8Encode c with
    | nil => exact absurd hc this
    | cons b bs => simp [hc]

theorem le_ALIGN_SIZE (n : Nat) : n ≤ ALIGN_SIZE n := by
  unfold ALIGN_SIZE alignBoundary
  have h := Nat.div_add_mod (n + 8 - 1) 8
  have h2 : (n + 8 - 1) % 8 < 8 := Nat.mod_lt _ (by decide)
  omega

theorem alignBoundary_dvd_ALIGN_SIZE (n : Nat) : alignBoundary ∣ ALIGN_SIZE n :=
  dvd_mul_left _ _

theorem ALIGN_SIZE_pos {n : Nat} (h : 0 < n) : 0 < ALIGN_SIZE n :=
  Nat.lt_of_lt_of_le h (le_ALIGN_SIZE n)

theorem toU32_zero : toU32 0 = 0 := rfl

theorem toU32_one : toU32 1 = 1 := rfl

theorem toU32_coe (n : Nat) (h : n < 4294967296) : toU32 (n : Int) = n := by
  unfold toU32
  rw [Int.emod_eq_of_lt (by positivity) (by exact_mod_cast h)]
  simp

theorem substr_prefix_eq (s : Str) (k : Nat) :
    (List.range k).filterMap (fun j => s.get? j) = s.take k := by
  induction k with
  | zero => simp
  | succ k ih =>
    rw [List.range_succ, List.filterMap_append, ih, List.take_succ]
    simp only [List.filterMap, List.get?_eq_getElem?]
    cases h : s[k]? <;> simp [h]

theorem substr_full (s : Str) : substr s 0 s.length 1 = s := by
  unfold substr
  have : (fun j => if j % 1 = 0 then s.get? (0 + j) else none) = fun j => s.get? j := by
    funext j; simp [Nat.mod_one]
  rw [this, substr_prefix_eq, List.take_length]

theorem substr_one (s : Str) (pos : Nat) : substr s pos 1 1 = (s.get? pos).toList := by
  unfold substr
  simp only [List.range_succ, List.range_zero, List.nil_append, List.filterMap,
    Nat.mod_one, Nat.add_zero, if_pos rfl, List.get?_eq_getElem?]
  cases h : s[pos]? <;> simp [h]

theorem escan_length (l : List Nat) : ∀ a : Nat, (escan a l).length = l.length := by
  induction l with
  | nil => intro a; rfl
  | cons x t ih => intro a; simp [escan, ih]

theorem escan_getD_zero (l : List Nat) (a : Nat) (h : l ≠ []) :
    (escan a l).getD 0 0 = a := by
  cases l with
  | nil => exact absurd rfl h
  | cons x t => rfl

theorem escan_getD_succ (l : List Nat) :
    ∀ (a i : Nat), i + 1 < l.length →
      (escan a l).getD (i + 1) 0 = (escan a l).getD i 0 + l.getD i 0 := by
  induction l with
  | nil => intro a i h; simp at h
  | cons x t ih =>
    intro a i h
    have hc : escan a (x :: t) = a :: escan (a + x) t := rfl
    cases i with
    | zero =>
      have ht : t ≠ [] := by
        intro he; rw [he] at h; simp at h
      rw [hc, List.getD_cons_succ, List.getD_cons_zero, List.getD_cons_zero,
        escan_getD_zero t (a + x) ht]
    | succ i =>
      rw [hc, List.getD_cons_succ, List.getD_cons_succ, List.getD_cons_succ]
      exact ih (a + x) i (by simpa using h)

theorem getD_map_of_lt {α β : Type} (l : List α) (f : α → β) (i : Nat) (d : β) (d' : α)
    (h : i < l.length) : (l.map f).getD i d = f (l.getD i d') := by
  induction l generalizing i with
  | nil => simp at h
  | cons x t ih =>
    cases i with
    | zero => rfl
    | succ i => simpa using ih i (by simpa using h)

theorem le_sum_of_get? : ∀ (l : List Nat) (i x : Nat), l.get? i = some x → x ≤ l.sum := by
  intro l
  induction l with
  | nil => intro i x h; simp at h
  | cons y t ih =>
    intro i x h
    cases i with
    | zero =>
      simp at h
      simp [h.symm, List.sum_cons, Nat.le_add_right]
    | succ i =>
      simp only [List.get?] at h
      calc x ≤ t.sum := ih i x h
        _ ≤ y + t.sum := Nat.le_add_left _ _
        _ = (y :: t).sum := by simp

theorem get?_replicate_of_lt {α : Type} (a : α) (n i : Nat) (h : i < n) :
    (List.replicate n a).get? i = some a := by
  induction n generalizing i with
  | zero => omega
  | succ n ih =>
    cases i with
    | zero => rfl
    | succ i => simpa [List.replicate] using ih i (by omega)

/-- C10: for every input array and caller-supplied results list, calling
`extract` or `extract_record` with a null pattern pointer returns the
error code -1 immediately, appending no arrays and performing no
compilation, allocation or device work (the result does not depend on the
input elements or on any allocator outcome). -/
theorem extract_null_pattern_returns_neg_one :
    ∀ (strs : List (Option Str)) (relistsOk : Bool) (bufAlloc : Nat → Bool),
      NVStrings.extract strs none relistsOk bufAlloc = Except.ok (-1, [])
      ∧ NVStrings.extract_record strs none relistsOk = Except.ok (-1, []) :=
  fun _ _ _ => ⟨rfl, rfl⟩

/-- C5: for every input array, `slice(start, stop, step)` with `stop > 0`
and `start > stop` raises the invalid-argument error synchronously: the
result is the error for every input array and every allocator outcome
`bufAlloc`, showing no sizing, allocation or kernel work is consulted. -/
theorem slice_invalid_argument (strs : List (Option Str)) (start stop step : Int)
    (bufAlloc : Bool) (h1 : 0 < stop) (h2 : stop < start) :
    NVStrings.slice strs start stop step bufAlloc = Except.error sliceErr := by
  unfold NVStrings.slice
  rw [if_pos ⟨h1, h2⟩]

/-- Witness for C5 at a concrete input: `slice(2, 1, 1)` on `["a"]`. -/
theorem slice_invalid_argument_witness :
    NVStrings.slice [some [97]] 2 1 1 true = Except.error sliceErr :=
  slice_invalid_argument [some [97]] 2 1 1 true (by decide) (by decide)

/-- C9: `slice_from(starts, stops)` slices each element `i` with
`start = starts[i]`, `stop = stops[i]` under the fixed slice's own
per-element semantics (`sliceSize` / `sliceElem`, `stop <= 0` meaning "to
end") at step 1, defaulting `start` to 0 when the starts array is absent
and `stop` to "to end" (-1) when the stops array is absent: `slice_from`
equals the specification `slice_from_spec` built from those words. -/
theorem slice_from_refines_fixed_slice :
    ∀ (strs : List (Option Str)) (starts stops : Option (List Int)) (bufAlloc : Bool),
      NVStrings.slice_from strs starts stops bufAlloc
        = slice_from_spec strs starts stops bufAlloc := by
  intro strs starts stops bufAlloc
  have hsz : sliceFromSizeAt strs starts stops
      = fun i => sliceSize (startsAt starts i) (stopsAt stops i) 1 (strs.getD i none) := by
    funext i
    cases h : strs[i]?.getD none <;>
      simp [sliceFromSizeAt, sliceSize, toU32_one, List.getD_eq_getElem?_getD, h]
  have hel : sliceFromElemAt strs starts stops
      = fun i => (strs.getD i none).map (sliceElem (startsAt starts i) (stopsAt stops i) 1) := by
    funext i
    cases h : strs[i]?.getD none <;>
      simp [sliceFromElemAt, sliceElem, toU32_one, List.getD_eq_getElem?_getD, h]
  unfold NVStrings.slice_from slice_from_spec
  rw [hsz, hel]

theorem sliceSize_eq_align_raw (start stop step : Int) (os : Option Str) :
    sliceSize start stop step os = ALIGN_SIZE (sliceRawSize start stop step os) := by
  cases os with
  | none =>
    show (0 : Nat) = ALIGN_SIZE 0
    decide
  | some s => rfl

/-- C1: for every input array and every `(start, stop, step)` with
`stop <= 0` or `start <= stop`, `slice` succeeds with an output whose
element count equals the input's, and every null input element is null in
the output; concretely, `slice(1,3,1)` on `["hello", null, "world"]`
yields `["el", null, "or"]`. -/
theorem slice_count_nulls_and_example :
    (∀ (strs : List (Option Str)) (start stop step : Int) (bufAlloc : Bool),
      (stop ≤ 0 ∨ start ≤ stop) →
      ∃ out : List (Option Str), NVStrings.slice strs start stop step bufAlloc = Except.ok out
        ∧ out.length = strs.length
        ∧ ∀ i : Nat, strs[i]? = some none → out[i]? = some none)
    ∧ NVStrings.slice
        [some [104, 101, 108, 108, 111], none, some [119, 111, 114, 108, 100]] 1 3 1 true
      = Except.ok [some [101, 108], none, some [111, 114]] := by
  constructor
  · intro strs start stop step bufAlloc h
    have hcond : ¬(stop > 0 ∧ start > stop) := by
      rcases h with h | h <;> (intro hc; omega)
    unfold NVStrings.slice
    rw [if_neg hcond]
    by_cases hz : (sliceSizes strs start stop step).sum = 0 ∨ bufAlloc = false
    · rw [if_pos hz]
      refine ⟨_, rfl, by simp, ?_⟩
      intro i hi
      rw [List.getElem?_map, hi]
      rfl
    · rw [if_neg hz]
      refine ⟨_, rfl, by simp, ?_⟩
      intro i hi
      rw [List.getElem?_map, hi]
      rfl
  · rfl

/-- Witness for C1 at a concrete input: `slice(0, -1, 1)` on `["h", null]`. -/
theorem slice_count_nulls_witness :
    ∃ out : List (Option Str), NVStrings.slice [some [104], none] 0 (-1) 1 true = Except.ok out
      ∧ out.length = ([some [104], none] : List (Option Str)).length
      ∧ ∀ i : Nat, ([some [104], none] : List (Option Str))[i]? = some none → out[i]? = some none :=
  slice_count_nulls_and_example.1 [some [104], none] 0 (-1) 1 true (Or.inl (by decide))

/-- C2: in the slice size/offset planner, every entry of the size table is
the alignment round-up of the element's raw byte size (so divisible by the
boundary and at least the raw size), and the offset table is the exclusive
prefix-sum of the size table: same length, `offset[0] = 0`,
`offset[i+1] = offset[i] + size[i]`, hence non-decreasing with
`offset[i+1] - offset[i] = size[i]`. -/
theorem slice_planner_offset_table (strs : List (Option Str)) (start stop step : Int) :
    (sliceOffsets strs start stop step).length = (sliceSizes strs start stop step).length
    ∧ (∀ i, i < strs.length →
        (sliceSizes strs start stop step).getD i 0
            = ALIGN_SIZE (sliceRawSize start stop step (strs.getD i none))
          ∧ alignBoundary ∣ (sliceSizes strs start stop step).getD i 0
          ∧ sliceRawSize start stop step (strs.getD i none)
              ≤ (sliceSizes strs start stop step).getD i 0)
    ∧ (sliceOffsets strs start stop step).getD 0 0 = 0
    ∧ (∀ i, i + 1 < strs.length →
        (sliceOffsets strs start stop step).getD (i + 1) 0
            = (sliceOffsets strs start stop step).getD i 0
              + (sliceSizes strs start stop step).getD i 0
          ∧ (sliceOffsets strs start stop step).getD i 0
              ≤ (sliceOffsets strs start stop step).getD (i + 1) 0
          ∧ (sliceOffsets strs start stop step).getD (i + 1) 0
              - (sliceOffsets strs start stop step).getD i 0
            = (sliceSizes strs start stop step).getD i 0) := by
  have hlen : (sliceSizes strs start stop step).length = strs.length := by
    simp [sliceSizes]
  refine ⟨?_, ?_, ?_, ?_⟩
  · simp [sliceOffsets, exclusive_scan, escan_length]
  · intro i hi
    have h1 : (sliceSizes strs start stop step).getD i 0
        = sliceSize start stop step (strs.getD i none) :=
      getD_map_of_lt strs _ i 0 none hi
    rw [h1, sliceSize_eq_align_raw]
    exact ⟨rfl, alignBoundary_dvd_ALIGN_SIZE _, le_ALIGN_SIZE _⟩
  · cases hs : sliceSizes strs start stop step with
    | nil => simp [sliceOffsets, exclusive_scan, hs, escan]
    | cons x t => simp [sliceOffsets, exclusive_scan, hs, escan]
  · intro i h
    have h' : i + 1 < (sliceSizes strs start stop step).length := by omega
    have hstep := escan_getD_succ (sliceSizes strs start stop step) 0 i h'
    have hoff : sliceOffsets strs start stop step
        = escan 0 (sliceSizes strs start stop step) := rfl
    rw [hoff]
    exact ⟨hstep, by omega, by omega⟩

/-- Witness for C2 at a concrete input: the planner for `slice(0, -1, 1)`
on `["he", null]`. -/
theorem slice_planner_offset_table_witness :
    (sliceOffsets [some [104, 101], none] 0 (-1) 1).getD 1 0
      = (sliceOffsets [some [104, 101], none] 0 (-1) 1).getD 0 0
        + (sliceSizes [some [104, 101], none] 0 (-1) 1).getD 0 0 :=
  ((slice_planner_offset_table [some [104, 101], none] 0 (-1) 1).2.2.2 0 (by decide)).1

theorem recordRow_length (prog : DReprog) (os : Option Str) :
    (recordRow prog os).length = prog.group_counts := by
  unfold recordRow
  split
  · simp
  · cases os with
    | none => simp
    | some s =>
      cases h : prog.find s with
      | none => simp [h]
      | some p =>
        obtain ⟨b, e⟩ := p
        simp [h]

theorem recordRow_nomatch (prog : DReprog) (s : Str) (h : prog.find s = none) :
    recordRow prog (some s) = List.replicate prog.group_counts none := by
  simp [recordRow, recordSizes, h]

/-- C4: for every non-empty input array and every pattern whose program
has at least one capture group (and whose regex working memory is
available), `extract_record` appends exactly one output array per input
element, each appended array's length equals the number of capture
groups, an input element with no match still gets its array appended with
zero populated entries (all-null row), and the call returns the number of
capture groups. -/
theorem extract_record_rows (strs : List (Option Str)) (prog : DReprog) (relistsOk : Bool)
    (h1 : strs ≠ [])
    (h2 : prog.inst_counts ≤ MAX_STACK_INSTS ∨ relistsOk = true)
    (h3 : 1 ≤ prog.group_counts) :
    ∃ rows : List (List (Option Str)),
      NVStrings.extract_record strs (some prog) relistsOk
          = Except.ok ((prog.group_counts : Int), rows)
        ∧ rows.length = strs.length
        ∧ (∀ r ∈ rows, r.length = prog.group_counts)
        ∧ (∀ i : Nat, ∀ s : Str, strs[i]? = some (some s) → prog.find s = none →
            rows[i]? = some (List.replicate prog.group_counts none)) := by
  have hlen : ¬(strs.length = 0) := by
    simpa [List.length_eq_zero] using h1
  have halloc : ¬(MAX_STACK_INSTS < prog.inst_counts ∧ relistsOk = false) := by
    rcases h2 with h | h
    · intro hc
      omega
    · intro hc
      rw [h] at hc
      exact absurd hc.2 (by simp)
  have hg : ¬(prog.group_counts = 0) := by omega
  refine ⟨strs.map (recordRow prog), ?_, by simp, ?_, ?_⟩
  · simp only [NVStrings.extract_record]
    rw [if_neg hlen, if_neg halloc, if_neg hg]
  · intro r hr
    rcases List.mem_map.mp hr with ⟨os, _, rfl⟩
    exact recordRow_length prog os
  · intro i s hi hf
    rw [List.getElem?_map, hi]
    simp [recordRow_nomatch prog s hf]

/-- Witness for C4 at a concrete input: a one-group program that matches
nothing, on the array `["a"]`. -/
theorem extract_record_rows_witness :
    ∃ rows : List (List (Option Str)),
      NVStrings.extract_record [some [97]]
          (some (⟨5, 1, fun _ => none, fun _ _ _ => none⟩ : DReprog)) true
          = Except.ok (((⟨5, 1, fun _ => none, fun _ _ _ => none⟩ : DReprog).group_counts : Int), rows)
        ∧ rows.length = ([some [97]] : List (Option Str)).length
        ∧ (∀ r ∈ rows, r.length = (⟨5, 1, fun _ => none, fun _ _ _ => none⟩ : DReprog).group_counts)
        ∧ (∀ i : Nat, ∀ s : Str, ([some [97]] : List (Option Str))[i]? = some (some s) →
            (⟨5, 1, fun _ => none, fun _ _ _ => none⟩ : DReprog).find s = none →
            rows[i]? = some (List.replicate (⟨5, 1, fun _ => none, fun _ _ _ => none⟩ : DReprog).group_counts none)) :=
  extract_record_rows [some [97]] ⟨5, 1, fun _ => none, fun _ _ _ => none⟩ true
    (by decide) (Or.inl (by decide)) (by decide)

/-- C6: resource exhaustion is asymmetric.  When the instruction count
exceeds the largest fixed working-memory class and `alloc_relists` fails,
`extract` and `extract_record` throw (for every input contents and every
output-buffer allocator, i.e. after compilation but before any kernel
result is consulted); whereas a failed output-buffer allocation
(`createMemoryFor` null) or a zero total output size is not an error:
`slice` returns success with every string null. -/
theorem alloc_failure_asymmetry :
    (∀ (strs : List (Option Str)) (prog : DReprog) (bufAlloc : Nat → Bool),
      strs ≠ [] → MAX_STACK_INSTS < prog.inst_counts →
        NVStrings.extract strs (some prog) false bufAlloc = Except.error extractErr
        ∧ NVStrings.extract_record strs (some prog) false = Except.error recordErr)
    ∧ (∀ (strs : List (Option Str)) (start stop step : Int),
        ¬(0 < stop ∧ stop < start) →
        NVStrings.slice strs start stop step false = Except.ok (strs.map (fun _ => none)))
    ∧ (∀ (strs : List (Option Str)) (start stop step : Int) (bufAlloc : Bool),
        ¬(0 < stop ∧ stop < start) → (sliceSizes strs start stop step).sum = 0 →
        NVStrings.slice strs start stop step bufAlloc = Except.ok (strs.map (fun _ => none))) := by
  refine ⟨?_, ?_, ?_⟩
  · intro strs prog bufAlloc h1 h2
    have hlen : ¬(strs.length = 0) := by
      simpa [List.length_eq_zero] using h1
    constructor
    · simp only [NVStrings.extract]
      rw [if_neg hlen, if_pos ⟨h2, trivial⟩]
    · simp only [NVStrings.extract_record]
      rw [if_neg hlen, if_pos ⟨h2, trivial⟩]
  · intro strs start stop step h
    unfold NVStrings.slice
    rw [if_neg h, if_pos (Or.inr rfl)]
  · intro strs start stop step bufAlloc h hsum
    unfold NVStrings.slice
    rw [if_neg h, if_pos (Or.inl hsum)]

/-- Witness for C6 at concrete inputs: a 1001-instruction program with
failed working-memory allocation on `["a"]`, and `slice(0,-1,1)` on
`["a"]` with failed buffer allocation. -/
theorem alloc_failure_asymmetry_witness :
    (NVStrings.extract [some [97]]
        (some (⟨1001, 1, fun _ => none, fun _ _ _ => none⟩ : DReprog)) false (fun _ => true)
      = Except.error extractErr)
    ∧ NVStrings.slice [some [97]] 0 (-1) 1 false = Except.ok [none] :=
  ⟨(alloc_failure_asymmetry.1 [some [97]] ⟨1001, 1, fun _ => none, fun _ _ _ => none⟩
      (fun _ => true) (by decide) (by decide)).1,
    alloc_failure_asymmetry.2.1 [some [97]] 0 (-1) 1 (by decide)⟩

theorem extractGo_length (strs : List (Option Str)) (prog : DReprog) (bufAlloc : Nat → Bool) :
    ∀ (fuel c : Nat) (lens : List Nat),
      (extractGo strs prog bufAlloc c fuel lens).length = fuel := by
  intro fuel
  induction fuel with
  | zero => intro c lens; rfl
  | succ f ih =>
    intro c lens
    simp only [extractGo]
    rw [List.length_cons, ih]

theorem extractGo_col_length (strs : List (Option Str)) (prog : DReprog) (bufAlloc : Nat → Bool) :
    ∀ (fuel c : Nat) (lens : List Nat) (col : List (Option Str)),
      col ∈ extractGo strs prog bufAlloc c fuel lens → col.length = strs.length := by
  intro fuel
  induction fuel with
  | zero => intro c lens col h; simp [extractGo] at h
  | succ f ih =>
    intro c lens col h
    simp only [extractGo, List.mem_cons] at h
    rcases h with h | h
    · rw [h]
      split <;> simp
    · exact ih _ _ col h

theorem extractGo_null_on_fail (strs : List (Option Str)) (prog : DReprog) (bufAlloc : Nat → Bool) :
    ∀ (fuel c : Nat) (lens : List Nat) (j : Nat), j < fuel →
      ∀ (i : Nat) (s : Str), strs[i]? = some (some s) → extractSpanS prog (c + j) s = none →
      ∃ colL : List (Option Str),
        (extractGo strs prog bufAlloc c fuel lens)[j]? = some colL ∧ colL[i]? = some none := by
  intro fuel
  induction fuel with
  | zero => intro c lens j hj; omega
  | succ f ih =>
    intro c lens j hj i s hi hsp
    cases j with
    | zero =>
      rw [Nat.add_zero] at hsp
      refine ⟨(if (List.zipWith (extractNewLen prog c) strs lens).sum = 0 ∨ bufAlloc c = false
          then strs.map (fun _ => none)
          else strs.map (extractColElem prog c)), ?_, ?_⟩
      · simp only [extractGo]
        exact List.getElem?_cons_zero
      · split
        · rw [List.getElem?_map, hi]
          rfl
        · rw [List.getElem?_map, hi]
          simp [extractColElem, hsp]
    | succ j =>
      have hsp2 : extractSpanS prog ((c + 1) + j) s = none := by
        rw [show (c + 1) + j = c + (j + 1) from by omega]
        exact hsp
      obtain ⟨colL, hg1, hg2⟩ :=
        ih (c + 1) (List.zipWith (extractNewLen prog c) strs lens) j (by omega) i s hi hsp2
      refine ⟨colL, ?_, hg2⟩
      simp only [extractGo]
      rw [List.getElem?_cons_succ]
      exact hg1

/-- Counterexample for C3: a pattern with one capture group on the empty
input array appends zero output arrays (not one) and returns 0, because
`extract` returns before compiling anything when the element count is
zero — the claim's "for every input array" fails on the empty array. -/
theorem extract_empty_input_counterexample :
    NVStrings.extract [] (some (⟨1, 1, fun _ => none, fun _ _ _ => none⟩ : DReprog)) true
        (fun _ => true)
      = Except.ok (0, [])
    ∧ (⟨1, 1, fun _ => none, fun _ _ _ => none⟩ : DReprog).group_counts = 1 :=
  ⟨rfl, rfl⟩

/-- C3 amended: for every NON-EMPTY input array and pattern (with regex
working memory available): if the program has `g >= 1` capture groups,
`extract` appends exactly `g` output arrays, each with the input's element
count, and every input element whose match or group extraction fails is
null in every appended column; if `g = 0`, it appends zero arrays and
returns success (0). -/
theorem extract_columns_amended (strs : List (Option Str)) (prog : DReprog)
    (relistsOk : Bool) (bufAlloc : Nat → Bool)
    (h1 : strs ≠ [])
    (h2 : prog.inst_counts ≤ MAX_STACK_INSTS ∨ relistsOk = true) :
    (1 ≤ prog.group_counts →
      ∃ cols : List (List (Option Str)),
        NVStrings.extract strs (some prog) relistsOk bufAlloc
            = Except.ok ((prog.group_counts : Int), cols)
          ∧ cols.length = prog.group_counts
          ∧ (∀ c ∈ cols, c.length = strs.length)
          ∧ (∀ j : Nat, j < prog.group_counts → ∀ i : Nat, ∀ s : Str,
              strs[i]? = some (some s) → extractSpanS prog j s = none →
              ∃ colL : List (Option Str), cols[j]? = some colL ∧ colL[i]? = some none))
    ∧ (prog.group_counts = 0 →
        NVStrings.extract strs (some prog) relistsOk bufAlloc = Except.ok (0, [])) := by
  have hlen : ¬(strs.length = 0) := by
    simpa [List.length_eq_zero] using h1
  have halloc : ¬(MAX_STACK_INSTS < prog.inst_counts ∧ relistsOk = false) := by
    rcases h2 with h | h
    · intro hc
      omega
    · intro hc
      rw [h] at hc
      exact absurd hc.2 (by simp)
  constructor
  · intro h3
    have hg : ¬(prog.group_counts = 0) := by omega
    refine ⟨extractGo strs prog bufAlloc 0 prog.group_counts (List.replicate strs.length 0),
      ?_, extractGo_length strs prog bufAlloc _ _ _, ?_, ?_⟩
    · simp only [NVStrings.extract]
      rw [if_neg hlen, if_neg halloc, if_neg hg]
    · intro c hc
      exact extractGo_col_length strs prog bufAlloc _ _ _ c hc
    · intro j hj i s hi hsp
      have hsp0 : extractSpanS prog (0 + j) s = none := by
        rw [Nat.zero_add]
        exact hsp
      exact extractGo_null_on_fail strs prog bufAlloc prog.group_counts 0
        (List.replicate strs.length 0) j hj i s hi hsp0
  · intro h3
    simp only [NVStrings.extract]
    rw [if_neg hlen, if_neg halloc, if_pos h3]

/-- Witness for the amended C3 at a concrete input: a one-group program
matching nothing on the array `["a"]`. -/
theorem extract_columns_amended_witness :
    (1 ≤ (⟨5, 1, fun _ => none, fun _ _ _ => none⟩ : DReprog).group_counts →
      ∃ cols : List (List (Option Str)),
        NVStrings.extract [some [97]] (some (⟨5, 1, fun _ => none, fun _ _ _ => none⟩ : DReprog))
            true (fun _ => true)
            = Except.ok (((⟨5, 1, fun _ => none, fun _ _ _ => none⟩ : DReprog).group_counts : Int), cols)
          ∧ cols.length = (⟨5, 1, fun _ => none, fun _ _ _ => none⟩ : DReprog).group_counts
          ∧ (∀ c ∈ cols, c.length = ([some [97]] : List (Option Str)).length)
          ∧ (∀ j : Nat, j < (⟨5, 1, fun _ => none, fun _ _ _ => none⟩ : DReprog).group_counts →
              ∀ i : Nat, ∀ s : Str,
              ([some [97]] : List (Option Str))[i]? = some (some s) →
              extractSpanS (⟨5, 1, fun _ => none, fun _ _ _ => none⟩ : DReprog) j s = none →
              ∃ colL : List (Option Str), cols[j]? = some colL ∧ colL[i]? = some none))
    ∧ ((⟨5, 1, fun _ => none, fun _ _ _ => none⟩ : DReprog).group_counts = 0 →
        NVStrings.extract [some [97]] (some (⟨5, 1, fun _ => none, fun _ _ _ => none⟩ : DReprog))
          true (fun _ => true) = Except.ok (0, [])) :=
  extract_columns_amended [some [97]] ⟨5, 1, fun _ => none, fun _ _ _ => none⟩ true
    (fun _ => true) (by decide) (Or.inl (by decide))

theorem le_sum_of_getElem (l : List Nat) (i x : Nat) (h : l[i]? = some x) : x ≤ l.sum := by
  apply le_sum_of_get? l i x
  rw [List.get?_eq_getElem?]
  exact h

theorem sliceElem_full (stop : Int) (s : Str) (hstop : stop ≤ 0)
    (hlen : s.length < 4294967296) : sliceElem 0 stop 1 s = s := by
  unfold sliceElem sliceLen chars_count
  rw [if_pos hstop, sub_zero, toU32_coe s.length hlen, toU32_zero, toU32_one]
  exact substr_full s

theorem sliceSize_full (stop : Int) (s : Str) (hstop : stop ≤ 0)
    (hlen : s.length < 4294967296) :
    sliceSize 0 stop 1 (some s) = ALIGN_SIZE (strBytes s).length := by
  show ALIGN_SIZE ((strBytes (sliceElem 0 stop 1 s)).length) = ALIGN_SIZE ((strBytes s).length)
  rw [sliceElem_full stop s hstop hlen]

/-- Counterexample for C7: on the input array `[""]` (one non-null, empty
element) the round-trip slice `slice(0, 0, 1)` returns the all-null empty
result (every aligned size is 0, so `createMemoryFor` yields no buffer),
not an array containing an empty string with the original bytes. -/
theorem slice_roundtrip_counterexample :
    NVStrings.slice [some ([] : Str)] 0 0 1 true = Except.ok [none]
    ∧ ¬ ∃ out : List (Option Str),
        NVStrings.slice [some ([] : Str)] 0 0 1 true = Except.ok out
        ∧ ∀ i : Nat, ∀ s : Str, ([some ([] : Str)] : List (Option Str))[i]? = some (some s) →
            ∃ t : Str, out[i]? = some (some t) ∧ strBytes t = strBytes s := by
  refine ⟨rfl, ?_⟩
  rintro ⟨out, hout, hall⟩
  rw [show NVStrings.slice [some ([] : Str)] 0 0 1 true = Except.ok [none] from rfl] at hout
  have heq : out = [none] := (Except.ok.inj hout).symm
  obtain ⟨t, ht, _⟩ := hall 0 [] rfl
  rw [heq] at ht
  simp at ht

/-- C7 amended: slicing with `start = 0`, `stop <= 0` ("to end") and step
1 reproduces, for every non-null element, the original string's bytes
exactly — provided at least one non-null element is non-empty (so the
total output size is positive; an array whose non-null elements are all
empty instead yields the all-null recoverable empty result) and elements
are shorter than 2^32 codepoints (the machine width of `chars_count`). -/
theorem slice_roundtrip_amended (strs : List (Option Str)) (stop : Int)
    (hstop : stop ≤ 0)
    (hw : ∀ os ∈ strs, (Option.getD os []).length < 4294967296)
    (hne : ∃ os ∈ strs, Option.getD os [] ≠ ([] : Str)) :
    ∃ out : List (Option Str), NVStrings.slice strs 0 stop 1 true = Except.ok out
      ∧ ∀ i : Nat, ∀ s : Str, strs[i]? = some (some s) →
          ∃ t : Str, out[i]? = some (some t) ∧ strBytes t = strBytes s := by
  obtain ⟨os, hmem, hne2⟩ := hne
  obtain ⟨s0, rfl⟩ : ∃ s : Str, os = some s := by
    cases os with
    | none => simp at hne2
    | some s => exact ⟨s, rfl⟩
  have hs0 : s0 ≠ [] := by simpa using hne2
  obtain ⟨i0, hi0⟩ := List.getElem?_of_mem hmem
  have hw0 : s0.length < 4294967296 := by simpa using hw (some s0) hmem
  have hsz : (sliceSizes strs 0 stop 1)[i0]? = some (ALIGN_SIZE (strBytes s0).length) := by
    unfold sliceSizes
    rw [List.getElem?_map, hi0]
    simp [sliceSize_full stop s0 hstop hw0]
  have hpos : 0 < ALIGN_SIZE (strBytes s0).length :=
    ALIGN_SIZE_pos (strBytes_len_pos hs0)
  have hsum : ¬((sliceSizes strs 0 stop 1).sum = 0 ∨ (true : Bool) = false) := by
    rintro (h | h)
    · have := le_sum_of_getElem _ _ _ hsz
      omega
    · simp at h
  unfold NVStrings.slice
  rw [if_neg (by rintro ⟨a, b⟩; omega : ¬(stop > 0 ∧ (0 : Int) > stop)), if_neg hsum]
  refine ⟨_, rfl, ?_⟩
  intro i s hi
  have hwi : s.length < 4294967296 := by
    simpa using hw (some s) (List.getElem?_mem hi)
  refine ⟨s, ?_, rfl⟩
  rw [List.getElem?_map, hi]
  simp [sliceElem_full stop s hstop hwi]

/-- Witness for the amended C7 at a concrete input: `["hi"]`, stop 0. -/
theorem slice_roundtrip_witness :
    ∃ out : List (Option Str), NVStrings.slice [some [104, 105]] 0 0 1 true = Except.ok out
      ∧ ∀ i : Nat, ∀ s : Str, ([some [104, 105]] : List (Option Str))[i]? = some (some s) →
          ∃ t : Str, out[i]? = some (some t) ∧ strBytes t = strBytes s :=
  slice_roundtrip_amended [some [104, 105]] 0 (by decide) (by decide) (by decide)

theorem sliceElem_at_pos (pos : Nat) (s : Str) (hpos : pos < 4294967296) :
    sliceElem (pos : Int) ((pos : Int) + 1) 1 s = ((s[pos]?).toList : Str) := by
  unfold sliceElem sliceLen chars_count
  have hc : ¬((pos : Int) + 1 ≤ 0) := by omega
  have h1 : (pos : Int) + 1 - (pos : Int) = 1 := by ring
  rw [if_neg hc, h1, toU32_one, toU32_coe pos hpos, substr_one, List.get?_eq_getElem?]

theorem sliceSize_at_pos (pos : Nat) (s : Str) (hpos : pos < 4294967296) :
    sliceSize (pos : Int) ((pos : Int) + 1) 1 (some s)
      = ALIGN_SIZE (strBytes ((s[pos]?).toList)).length := by
  show ALIGN_SIZE ((strBytes (sliceElem (pos : Int) ((pos : Int) + 1) 1 s)).length) = _
  rw [sliceElem_at_pos pos s hpos]

/-- Counterexample for C8: `get(1)` on `["ab", "x"]`.  The one-codepoint
string `"x"` has fewer than `pos+1 = 2` codepoints, and its output element
is the zero-length string (`some []`), not null as the claim states. -/
theorem get_shorter_counterexample :
    NVStrings.get [some [97, 98], some [120]] 1 true
        = Except.ok [some [98], some ([] : Str)]
      ∧ (some ([] : Str) : Option Str) ≠ none :=
  ⟨rfl, by decide⟩

/-- C8 amended: `get(pos)` is literally `slice(pos, pos+1, 1)` for every
`pos` and input; whenever some element has at least `pos+1` codepoints
(so the output buffer is non-empty) and `pos` fits in 32 bits, every
non-null string with at least `pos+1` codepoints yields the one-codepoint
string at position `pos`, and every shorter non-null string yields the
zero-length string (not null; the whole output is null only when no
element reaches position `pos`). -/
theorem get_equiv_slice_amended :
    (∀ (strs : List (Option Str)) (pos : Nat) (b : Bool),
      NVStrings.get strs pos b = NVStrings.slice strs (pos : Int) ((pos : Int) + 1) 1 b)
    ∧ (∀ (strs : List (Option Str)) (pos : Nat),
        pos < 4294967296 →
        (∃ os ∈ strs, pos + 1 ≤ (Option.getD os []).length) →
        ∃ out : List (Option Str), NVStrings.get strs pos true = Except.ok out
          ∧ (∀ i : Nat, ∀ s : Str, ∀ c : Nat,
              strs[i]? = some (some s) → s[pos]? = some c → out[i]? = some (some [c]))
          ∧ (∀ i : Nat, ∀ s : Str,
              strs[i]? = some (some s) → s.length ≤ pos → out[i]? = some (some ([] : Str)))) := by
  constructor
  · intro strs pos b
    rfl
  · intro strs pos hpos hex
    obtain ⟨os, hmem, hlen⟩ := hex
    obtain ⟨s0, rfl⟩ : ∃ s : Str, os = some s := by
      cases os with
      | none => simp at hlen
      | some s => exact ⟨s, rfl⟩
    simp only [Option.getD_some] at hlen
    obtain ⟨i0, hi0⟩ := List.getElem?_of_mem hmem
    obtain ⟨c0, hc0⟩ : ∃ c : Nat, s0[pos]? = some c := by
      cases h : s0[pos]? with
      | none =>
        have := List.getElem?_eq_none_iff.mp h
        omega
      | some c => exact ⟨c, rfl⟩
    have hsz : (sliceSizes strs (pos : Int) ((pos : Int) + 1) 1)[i0]?
        = some (ALIGN_SIZE (strBytes [c0]).length) := by
      unfold sliceSizes
      rw [List.getElem?_map, hi0]
      simp [sliceSize_at_pos pos s0 hpos, hc0]
    have hapos : 0 < ALIGN_SIZE (strBytes [c0]).length :=
      ALIGN_SIZE_pos (strBytes_len_pos (by simp))
    have hsum : ¬((sliceSizes strs (pos : Int) ((pos : Int) + 1) 1).sum = 0
        ∨ (true : Bool) = false) := by
      rintro (h | h)
      · have := le_sum_of_getElem _ _ _ hsz
        omega
      · simp at h
    unfold NVStrings.get NVStrings.slice
    rw [if_neg (by rintro ⟨a, b⟩; omega :
        ¬((pos : Int) + 1 > 0 ∧ (pos : Int) > (pos : Int) + 1)), if_neg hsum]
    refine ⟨_, rfl, ?_, ?_⟩
    · intro i s c hi hc
      rw [List.getElem?_map, hi]
      simp [sliceElem_at_pos pos s hpos, hc]
    · intro i s hi hle
      have hnone : s[pos]? = none := List.getElem?_eq_none_iff.mpr hle
      rw [List.getElem?_map, hi]
      simp [sliceElem_at_pos pos s hpos, hnone]

/-- Witness for the amended C8 at a concrete input: `get(1)` on
`["ab", "x"]`. -/
theorem get_equiv_slice_witness :
    ∃ out : List (Option Str),
      NVStrings.get [some [97, 98], some [120]] 1 true = Except.ok out
      ∧ (∀ i : Nat, ∀ s : Str, ∀ c : Nat,
          ([some [97, 98], some [120]] : List (Option Str))[i]? = some (some s) →
          s[1]? = some c → out[i]? = some (some [c]))
      ∧ (∀ i : Nat, ∀ s : Str,
          ([some [97, 98], some [120]] : List (Option Str))[i]? = some (some s) →
          s.length ≤ 1 → out[i]? = some (some ([] : Str))) :=
  get_equiv_slice_amended.2 [some [97, 98], some [120]] 1 (by decide) (by decide)
